import Mathlib

/-
Verification of the B-route smart-meter reader
(homeassistant/components/b_route_meter/broute_reader.py).

Shallow embedding conventions:
- a serial line (the result of one readline() call) is a byte list
  (List Nat, each element < 256); the empty list models an empty read
  (readline timing out and returning b"").
- a finite list of lines models the serial input stream; once the list
  is exhausted every further readline() returns an empty read, and loops
  that would then spin forever are modelled by returning Option.none.
- Python float arithmetic on the extracted values is modelled as exact
  rational arithmetic (Rat).
- ASCII text operations (decode("utf-8").strip(), split(":")) are
  modelled directly on the byte lists; on the ASCII inputs the protocol
  produces, the UTF-8 decode is the identity.
-/

deriving instance DecidableEq for Except

namespace BRoute

/-- One serial line, as returned by readline(): a list of byte values. -/
abbrev Line := List Nat

/-- Test whether the byte list p is a prefix of the byte list b;
models bytes.startswith. -/
def bytesStartWith : List Nat → List Nat → Bool
  | [], _ => true
  | _ :: _, [] => false
  | p :: ps, b :: bs => p == b && bytesStartWith ps bs

/-- Byte values of the ASCII string OK. -/
def okBytes : List Nat := [79, 75]

/-- Big-endian base-256 value of a byte list; models int.from_bytes(-, "big"). -/
def fromBytesBE (l : List Nat) : Nat := l.foldl (fun acc b => acc * 256 + b) 0

/-- ASCII whitespace bytes stripped by str.strip(). -/
def isSpaceByte (b : Nat) : Bool :=
  b == 32 || b == 9 || b == 10 || b == 13 || b == 11 || b == 12

/-- Models str.strip() on an ASCII byte list. -/
def stripBytes (l : List Nat) : List Nat :=
  ((l.dropWhile isSpaceByte).reverse.dropWhile isSpaceByte).reverse

/-- Split a byte list at every occurrence of the byte sep
(models str.split(sep) with no maxsplit). -/
def splitByte (sep : Nat) : List Nat → List (List Nat)
  | [] => [[]]
  | b :: rest =>
    match splitByte sep rest with
    | [] => [[]]
    | cur :: done =>
      if b == sep then [] :: cur :: done else (b :: cur) :: done

/-- Split off the part of a byte list before the first occurrence of sep,
returning it together with the part after sep, when sep occurs. -/
def breakAtByte (sep : Nat) : List Nat → Option (List Nat × List Nat)
  | [] => none
  | b :: rest =>
    if b == sep then some ([], rest)
    else
      match breakAtByte sep rest with
      | none => none
      | some (tok, rem) => some (b :: tok, rem)

/-- Models bytes.split(sep, maxsplit): at most maxsplit splits at the
leftmost separators, the remainder kept whole as the final token. -/
def splitMaxBytes (sep : Nat) : Nat → List Nat → List (List Nat)
  | 0, bs => [bs]
  | k + 1, bs =>
    match breakAtByte sep bs with
    | none => [bs]
    | some (tok, rest) => tok :: splitMaxBytes sep k rest

/-- Models bytes.rstrip(CRLF): drop trailing carriage-return and
line-feed bytes. -/
def rstripCRLF (l : List Nat) : List Nat :=
  (l.reverse.dropWhile (fun b => b == 13 || b == 10)).reverse

/-- Count of empty reads in a list of lines. -/
def countEmpty (ls : List Line) : Nat := ls.countP (fun l => l.isEmpty)

/-- Inner loop of the source method wait_ok, carrying the running
empty_count. Reads lines one by one: an empty read increments the
counter and fails once it reaches max_empty_read = 5; a line starting
with OK succeeds, returning the unconsumed rest of the stream; any
other line is skipped without touching the counter. An exhausted
stream means every further read is empty, hence failure. -/
def waitOkAux (ec : Nat) : List Line → Except Unit (List Line)
  | [] => .error ()
  | l :: rest =>
    if l.isEmpty then
      if 5 ≤ ec + 1 then .error () else waitOkAux (ec + 1) rest
    else if bytesStartWith okBytes l then .ok rest
    else waitOkAux ec rest

/-- The source method wait_ok: wait until a line starting with OK
arrives, with an empty-read budget of 5. -/
def wait_ok (lines : List Line) : Except Unit (List Line) := waitOkAux 0 lines

/-- Modelled from the spec: the waitForPrefix primitive as the spec
words it, discarding empty reads up to maxEmptyReads CONSECUTIVE
times, so the empty counter resets on every non-empty line. This
definition exists only to compare the spec wording with wait_ok. -/
def waitOkConsecutive (ec : Nat) : List Line → Except Unit (List Line)
  | [] => .error ()
  | l :: rest =>
    if l.isEmpty then
      if 5 ≤ ec + 1 then .error () else waitOkConsecutive (ec + 1) rest
    else if bytesStartWith okBytes l then .ok rest
    else waitOkConsecutive 0 rest

/-! ### Channel scan (_scan_channel) -/

/-- The scanRes dictionary: insertion-ordered association list of
byte-string keys to byte-string values. -/
abbrev ScanRes := List (List Nat × List Nat)

/-- Models dict assignment scanRes[key] = val. -/
def dictSet (s : ScanRes) (k v : List Nat) : ScanRes :=
  match s with
  | [] => [(k, v)]
  | (k0, v0) :: rest =>
    if k0 = k then (k0, v) :: rest else (k0, v0) :: dictSet rest k v

/-- Byte values of the ASCII string Channel. -/
def channelKey : List Nat := [67, 104, 97, 110, 110, 101, 108]

/-- Byte values of the ASCII string EVENT 22. -/
def event22Bytes : List Nat := [69, 86, 69, 78, 84, 32, 50, 50]

/-- Models the membership test (Channel in scanRes). -/
def hasChannel (s : ScanRes) : Bool := s.any (fun p => p.1 == channelKey)

/-- Merge one indented scan-result line into scanRes: strip, split on
the colon byte, and assign scanRes[key] = val when the split yields
exactly two columns. -/
def mergeScanLine (s : ScanRes) (l : Line) : ScanRes :=
  match splitByte 58 (stripBytes l) with
  | [k, v] => dictSet s k v
  | _ => s

/-- One scan attempt: the inner while-not-scanEnd loop of
_scan_channel. Reads lines until one starting with EVENT 22 ends the
attempt (returning the scanRes built so far and the unconsumed lines);
lines starting with two spaces are merged as key:value scan results;
empty and other lines are skipped. An exhausted stream means the loop
would spin on empty reads forever, modelled as none. -/
def scanAttempt (s : ScanRes) : List Line → Option (ScanRes × List Line)
  | [] => none
  | l :: rest =>
    if l.isEmpty then scanAttempt s rest
    else if bytesStartWith event22Bytes l then some (s, rest)
    else if bytesStartWith [32, 32] l then scanAttempt (mergeScanLine s l) rest
    else scanAttempt s rest

/-- Outer loop of _scan_channel, with a structural fuel argument so the
definition kernel-evaluates; the loop itself retries at durations
5, 6, ..., and raises once the incremented duration exceeds 14 with no
channel found, so fuel 11 at duration 5 is never exhausted. Returns
the trace of (attempt duration, scanRes after the attempt) pairs
together with the outcome: ok (final scanRes, unconsumed lines), or
error for the scan-exhausted BRouteError. The re-check of the while
condition after an attempt is unfolded into the second branch. -/
def scanLoop : Nat → Nat → ScanRes → List Line →
    Option (List (Nat × ScanRes) × Except Unit (ScanRes × List Line))
  | 0, _, _, _ => none
  | fuel + 1, d, s, lines =>
    if hasChannel s then some ([], .ok (s, lines))
    else
      match scanAttempt s lines with
      | none => none
      | some (s2, rest) =>
        if 14 < d + 1 ∧ hasChannel s2 = false then some ([(d, s2)], .error ())
        else if hasChannel s2 then some ([(d, s2)], .ok (s2, rest))
        else
          match scanLoop fuel (d + 1) s2 rest with
          | none => none
          | some (tr, res) => some ((d, s2) :: tr, res)

/-- The source method _scan_channel on a fresh reader (scanRes starts
empty, scanDuration starts at 5). -/
def scan_channel (lines : List Line) :
    Option (List (Nat × ScanRes) × Except Unit (ScanRes × List Line)) :=
  scanLoop 11 5 [] lines

/-! ### ECHONET Lite frame parsing (_parse_echonet_frame) -/

/-- The dict returned by _parse_echonet_frame in the non-empty case:
header fields EHD, TID, SEOJ, DEOJ, ESV, OPC and the property list of
(EPC, PDC, EDT) triples. -/
structure EchonetFrame where
  EHD : List Nat
  TID : List Nat
  SEOJ : List Nat
  DEOJ : List Nat
  ESV : Nat
  OPC : Nat
  properties : List (Nat × Nat × List Nat)
deriving DecidableEq

/-- The property-parsing loop of _parse_echonet_frame: up to n = OPC
iterations, reading at offset off into b a 1-byte EPC, a 1-byte PDC
and PDC data bytes, stopping at the first read that would exceed the
buffer and returning the triples parsed so far. -/
def parseProps : Nat → List Nat → Nat → List (Nat × Nat × List Nat)
  | 0, _, _ => []
  | n + 1, b, off =>
    if b.length < off + 2 then []
    else if b.length < off + 2 + b.getD (off + 1) 0 then []
    else
      (b.getD off 0, b.getD (off + 1) 0, (b.drop (off + 2)).take (b.getD (off + 1) 0)) ::
        parseProps n b (off + 2 + b.getD (off + 1) 0)

/-- The source method _parse_echonet_frame: an input shorter than the
12-byte header yields the empty dict (modelled as none); otherwise the
header fields are read at fixed offsets and the properties are parsed
from offset 12 for OPC iterations. -/
def parse_echonet_frame (b : List Nat) : Option EchonetFrame :=
  if b.length < 12 then none
  else
    some
      { EHD := b.take 2
        TID := (b.drop 2).take 2
        SEOJ := (b.drop 4).take 3
        DEOJ := (b.drop 7).take 3
        ESV := b.getD 10 0
        OPC := b.getD 11 0
        properties := parseProps (b.getD 11 0) b 12 }

/-- Models frame_info.get(properties, []): the property list of the
parse result, defaulting to the empty list for the empty dict. -/
def propsOf (o : Option EchonetFrame) : List (Nat × Nat × List Nat) :=
  o.elim [] (fun f => f.properties)

/-- Concatenated wire bytes of a property list: EPC byte, PDC byte,
then the EDT bytes, for each triple in order. -/
def propsBytes : List (Nat × Nat × List Nat) → List Nat
  | [] => []
  | (epc, pdc, edt) :: rest => epc :: pdc :: (edt ++ propsBytes rest)

/-! ### Value extraction and get_data -/

/-- The dict returned by get_data: five independently optional values.
Python float arithmetic is modelled as exact rational arithmetic. -/
structure Reading where
  e7_power : Option Int
  e8_current : Option Rat
  e9_voltage : Option Rat
  ea_forward : Option Rat
  eb_reverse : Option Rat
deriving DecidableEq

/-- The reading with every field absent, matching the five variables
get_data initializes to None before its read loop. -/
def emptyReading : Reading :=
  { e7_power := none, e8_current := none, e9_voltage := none
    ea_forward := none, eb_reverse := none }

/-- Gregorian leap-year test, as used by datetime validity. -/
def isLeapYear (y : Nat) : Bool :=
  y % 4 == 0 && (y % 100 != 0 || y % 400 == 0)

/-- Day count of a month, as used by datetime validity. -/
def daysInMonth (y m : Nat) : Nat :=
  if m = 2 then (if isLeapYear y then 29 else 28)
  else if m = 4 ∨ m = 6 ∨ m = 9 ∨ m = 11 then 30
  else 31

/-- Whether datetime(year, month, day, hour, minute, second) succeeds
rather than raising ValueError. -/
def isValidDate (year month day hour minute second : Nat) : Bool :=
  1 ≤ year && year ≤ 9999 && 1 ≤ month && month ≤ 12 &&
  1 ≤ day && day ≤ daysInMonth year month &&
  hour ≤ 23 && minute ≤ 59 && second ≤ 59

/-- The body of the for-epc-pdc-edt loop in get_data, applied to one
parsed property triple: the if/elif chain on the property code updating
the reading under construction. The try/except ValueError around the
diagnostic datetime construction in the EA/EB branch swallows an
invalid calendar date, so both branches of the validity test continue
identically into producing the cumulative value. -/
def extractProp (r : Reading) (p : Nat × Nat × List Nat) : Reading :=
  let (epc, pdc, edt) := p
  if epc = 0xE7 ∧ pdc = 4 then
    let val := fromBytesBE edt
    let v : Int :=
      if (val >>> 31) &&& 1 = 1 then -((val ^^^ 0xFFFFFFFF : Nat) : Int) - 1
      else (val : Int)
    { r with e7_power := some v }
  else if epc = 0xE8 then
    if pdc = 4 then
      let i1 := fromBytesBE (edt.take 2)
      let i2 := fromBytesBE ((edt.drop 2).take 2)
      { r with e8_current := some ((i1 : Rat) / 10 + (i2 : Rat) / 10) }
    else r
  else if epc = 0xE9 then
    if pdc = 4 then
      let v1 := fromBytesBE (edt.take 2)
      let v2 := fromBytesBE ((edt.drop 2).take 2)
      { r with e9_voltage := some (((v1 : Rat) + (v2 : Rat)) / 2) }
    else if pdc = 0 then r
    else r
  else if (epc = 0xEA ∨ epc = 0xEB) ∧ 10 ≤ pdc then
    let year := fromBytesBE (edt.take 2)
    let month := edt.getD 2 0
    let day := edt.getD 3 0
    let hour := edt.getD 4 0
    let minute := edt.getD 5 0
    let second := edt.getD 6 0
    let accumRaw := fromBytesBE ((edt.drop 7).take 4)
    let accumVal : Rat := (accumRaw : Rat) / 10
    let r := if isValidDate year month day hour minute second then r else r
    if epc = 0xEA then { r with ea_forward := some accumVal }
    else { r with eb_reverse := some accumVal }
  else r

/-- Run the extraction loop over a parsed property list, starting from
the all-None reading get_data initializes. -/
def extractReading (props : List (Nat × Nat × List Nat)) : Reading :=
  props.foldl extractProp emptyReading

/-- Byte values of the ASCII string ERXUDP. -/
def erxudpBytes : List Nat := [69, 82, 88, 85, 68, 80]

/-- The property codes get_data requests. -/
def get_data_epcs : List Nat := [0xE7, 0xE8, 0xE9, 0xEA, 0xEB]

/-- The ECHONET Lite read-request frame get_data builds: EHD, TID,
SEOJ (controller), DEOJ (low-voltage smart meter), ESV = 0x62, OPC =
0x05, then for each requested code the EPC byte and a zero PDC byte. -/
def get_data_frame : List Nat :=
  get_data_epcs.foldl (fun acc epc => acc ++ [epc, 0x00])
    ([0x10, 0x81] ++ [0x00, 0x01] ++ [0x05, 0xFF, 0x01] ++
     [0x02, 0x88, 0x01] ++ [0x62] ++ [0x05])

/-- The read loop of get_data: up to 10 readline() calls after the
request is sent. Empty lines and lines not starting with ERXUDP are
skipped; an ERXUDP line is split on single spaces with maxsplit 8 and
skipped when fewer than 9 tokens result; otherwise the ninth token,
with trailing CR/LF stripped, is parsed as an ECHONET frame, its
properties are extracted, and the loop breaks. An exhausted stream
means every further read is empty, so the loop ends with the all-None
reading. -/
def getDataLoop : Nat → List Line → Reading
  | 0, _ => emptyReading
  | _ + 1, [] => emptyReading
  | k + 1, l :: rest =>
    if l.isEmpty then getDataLoop k rest
    else if bytesStartWith erxudpBytes l then
      let tokens := splitMaxBytes 32 8 l
      if tokens.length < 9 then getDataLoop k rest
      else extractReading (propsOf (parse_echonet_frame (rstripCRLF (tokens.getD 8 []))))
    else getDataLoop k rest

/-- The source method get_data, as a function of the response line
stream (the SKSENDTO write and the connected-state precondition are
outside the scope of the verified claims). -/
def get_data (lines : List Line) : Reading := getDataLoop 10 lines

/-! ### connect() and its error wrapping -/

/-- State of the serial port over a connect() call: no port object was
ever opened, the port is open, or the port has been closed. -/
inductive PortState where
  | noPort
  | opened
  | closed
deriving DecidableEq

/-- Errors arising inside connect(): the granular step errors, and the
wrapped BRouteError the top-level handler raises from a caught step
error. -/
inductive BErr where
  | portOpenFailed
  | waitOkTimeout
  | scanExhausted
  | keyError
  | panaFailed
  | wrapped (cause : BErr)
deriving DecidableEq

/-- Whether an error is the top-level wrapped BRouteError (as opposed
to a granular step error). -/
def BErr.isWrapped : BErr → Bool
  | .wrapped _ => true
  | _ => false

/-- Byte values of the ASCII string EVENT 24. -/
def event24Bytes : List Nat := [69, 86, 69, 78, 84, 32, 50, 52]

/-- Byte values of the ASCII string EVENT 25. -/
def event25Bytes : List Nat := [69, 86, 69, 78, 84, 32, 50, 53]

/-- The PANA authentication wait loop at the end of connect(): read
lines indefinitely; an EVENT 24 line raises the authentication-failure
BRouteError; an EVENT 25 line ends the loop; empty and other lines are
skipped. An exhausted stream means the loop spins on empty reads
forever, modelled as none. -/
def authWait : List Line → Option (Except BErr (List Line))
  | [] => none
  | l :: rest =>
    if l.isEmpty then authWait rest
    else if bytesStartWith event24Bytes l then some (.error .panaFailed)
    else if bytesStartWith event25Bytes l then some (.ok rest)
    else authWait rest

/-- Models dict subscripting scanRes[key], which raises KeyError when
the key is missing. -/
def dictGet (s : ScanRes) (k : List Nat) : Option (List Nat) :=
  match s with
  | [] => none
  | (k0, v0) :: rest => if k0 = k then some v0 else dictGet rest k

/-- Byte values of the ASCII string Pan ID. -/
def panIdKey : List Nat := [80, 97, 110, 32, 73, 68]

/-- Byte values of the ASCII string Addr. -/
def addrKey : List Nat := [65, 100, 100, 114]

/-- The try-block body of connect(), threading the serial line stream
through the steps in source order: open the port, wait for OK after
SKSETPWD and after SKSETRBID, run the channel scan, look up the
Channel and Pan ID keys and wait for OK after each SKSREG write, look
up Addr and consume the two SKLL64 reply lines, wait for OK after
SKJOIN, then run the PANA authentication wait. The first failing step
produces its granular error; none models a loop that never
terminates. -/
def connectBody (openOk : Bool) (lines : List Line) : Option (Except BErr Unit) :=
  if openOk = false then some (.error .portOpenFailed)
  else
    match wait_ok lines with
    | .error _ => some (.error .waitOkTimeout)
    | .ok l1 =>
      match wait_ok l1 with
      | .error _ => some (.error .waitOkTimeout)
      | .ok l2 =>
        match scan_channel l2 with
        | none => none
        | some (_, .error _) => some (.error .scanExhausted)
        | some (_, .ok (s, l3)) =>
          match dictGet s channelKey with
          | none => some (.error .keyError)
          | some _ =>
            match wait_ok l3 with
            | .error _ => some (.error .waitOkTimeout)
            | .ok l4 =>
              match dictGet s panIdKey with
              | none => some (.error .keyError)
              | some _ =>
                match wait_ok l4 with
                | .error _ => some (.error .waitOkTimeout)
                | .ok l5 =>
                  match dictGet s addrKey with
                  | none => some (.error .keyError)
                  | some _ =>
                    match wait_ok (l5.drop 2) with
                    | .error _ => some (.error .waitOkTimeout)
                    | .ok l6 =>
                      match authWait l6 with
                      | none => none
                      | some (.error e) => some (.error e)
                      | some (.ok _) => some (.ok ())

/-- The source method connect(): run the body under the top-level
except-handler, which closes the port when one is open and raises a
single BRouteError wrapping the caught step error as its cause.
Returns the final port state together with the outcome. -/
def connect (openOk : Bool) (lines : List Line) :
    Option (PortState × Except BErr Unit) :=
  let port : PortState := if openOk then .opened else .noPort
  match connectBody openOk lines with
  | none => none
  | some (.ok _) => some (.opened, .ok ())
  | some (.error e) =>
      some ((if port = .opened then .closed else port), .error (.wrapped e))

/-- The 32-bit twos-complement (big-endian) reading of an unsigned
32-bit value, as the spec describes the instantaneous-power field. -/
def toSigned32 (n : Nat) : Int :=
  if n < 2 ^ 31 then (n : Int) else (n : Int) - 2 ^ 32

/-! ## Supporting lemmas -/

/-- Full behavioral characterization of the property-parsing loop:
every parsed triple carries exactly PDC data bytes; the concatenated
wire bytes of the parsed triples form a prefix of the buffer from the
starting offset; at most n triples are parsed; and when fewer than n
are parsed, the next read at the stopping offset would have exceeded
the buffer (either no room for the code/length pair, or no room for
the declared data bytes). -/
theorem parseProps_spec : ∀ (n : Nat) (b : List Nat) (off : Nat),
    (∀ t ∈ parseProps n b off, t.2.2.length = t.2.1) ∧
    (∃ rest, b.drop off = propsBytes (parseProps n b off) ++ rest) ∧
    (parseProps n b off).length ≤ n ∧
    ((parseProps n b off).length < n →
      b.length < off + (propsBytes (parseProps n b off)).length + 2 ∨
      b.length < off + (propsBytes (parseProps n b off)).length + 2 +
        b.getD (off + (propsBytes (parseProps n b off)).length + 1) 0) := by
  intro n
  induction n with
  | zero =>
    intro b off
    refine ⟨by simp [parseProps], ⟨b.drop off, by simp [parseProps, propsBytes]⟩,
      by simp [parseProps], by simp [parseProps]⟩
  | succ n ih =>
    intro b off
    by_cases h1 : b.length < off + 2
    · simp only [parseProps, if_pos h1]
      exact ⟨by simp, ⟨b.drop off, by simp [propsBytes]⟩, by simp,
        fun _ => Or.inl (by simpa [propsBytes] using h1)⟩
    · by_cases h2 : b.length < off + 2 + b.getD (off + 1) 0
      · simp only [parseProps, if_neg h1, if_pos h2]
        exact ⟨by simp, ⟨b.drop off, by simp [propsBytes]⟩, by simp,
          fun _ => Or.inr (by simpa [propsBytes] using h2)⟩
      · simp only [parseProps, if_neg h1, if_neg h2]
        obtain ⟨ihLen, ⟨rest, ihPre⟩, ihLe, ihStop⟩ :=
          ih b (off + 2 + b.getD (off + 1) 0)
        have hoff2 : off + 2 ≤ b.length := by omega
        have hpdc : off + 2 + b.getD (off + 1) 0 ≤ b.length := by omega
        have hlenEdt : ((b.drop (off + 2)).take (b.getD (off + 1) 0)).length
            = b.getD (off + 1) 0 := by
          simp only [List.length_take, List.length_drop]
          omega
        refine ⟨?_, ⟨rest, ?_⟩, by simpa using ihLe, ?_⟩
        · intro t ht
          rcases List.mem_cons.mp ht with h | h
          · subst h; exact hlenEdt
          · exact ihLen t h
        · have e1 : off < b.length := by omega
          have e2 : off + 1 < b.length := by omega
          have d0 : b.drop off = b.getD off 0 :: b.drop (off + 1) := by
            rw [List.drop_eq_getElem_cons e1]
            simp [List.getD_eq_getElem?_getD, List.getElem?_eq_getElem e1]
          have d1 : b.drop (off + 1) = b.getD (off + 1) 0 :: b.drop (off + 2) := by
            rw [List.drop_eq_getElem_cons e2]
            simp [List.getD_eq_getElem?_getD, List.getElem?_eq_getElem e2]
          have d2 : b.drop (off + 2)
              = (b.drop (off + 2)).take (b.getD (off + 1) 0)
                ++ b.drop (off + 2 + b.getD (off + 1) 0) := by
            conv_lhs => rw [← List.take_append_drop (b.getD (off + 1) 0) (b.drop (off + 2))]
            rw [List.drop_drop]
          conv_lhs => rw [d0, d1, d2, ihPre]
          rw [propsBytes]
          simp only [List.cons_append, List.append_assoc]
        · intro hlt
          have hlt2 : (parseProps n b (off + 2 + b.getD (off + 1) 0)).length < n := by
            simpa using hlt
          have hsz : (propsBytes ((b.getD off 0, b.getD (off + 1) 0,
              (b.drop (off + 2)).take (b.getD (off + 1) 0)) ::
              parseProps n b (off + 2 + b.getD (off + 1) 0))).length
              = 2 + b.getD (off + 1) 0
                + (propsBytes (parseProps n b (off + 2 + b.getD (off + 1) 0))).length := by
            simp only [propsBytes, List.length_cons, List.length_append, hlenEdt]
            omega
          rcases ihStop hlt2 with h | h
          · left; rw [hsz]; omega
          · right
            rw [hsz]
            have eidx : off + (2 + b.getD (off + 1) 0
                + (propsBytes (parseProps n b (off + 2 + b.getD (off + 1) 0))).length) + 1
                = off + 2 + b.getD (off + 1) 0
                  + (propsBytes (parseProps n b (off + 2 + b.getD (off + 1) 0))).length + 1 := by
              omega
            rw [eidx]
            omega

/-! ## Claim theorems -/

/-- C4: Parsing the ECHONET payload of the read-request frame that
get_data builds yields service code 0x62 (read request), property
count equal to the number of requested property codes (5), and, in
order, one property per requested code 0xE7, 0xE8, 0xE9, 0xEA, 0xEB,
each with declared length 0 and empty payload. -/
theorem C4_read_request_round_trip :
    (parse_echonet_frame get_data_frame).map (fun f => (f.ESV, f.OPC, f.properties))
      = some (0x62, get_data_epcs.length,
          get_data_epcs.map (fun epc => (epc, 0, ([] : List Nat)))) := by
  rfl

/-- C5: The frame parser never throws: an input shorter than 12 bytes
yields the empty structure (no header fields, no property list, here
none); otherwise parsing always succeeds, producing at most OPC
properties, and when fewer than OPC are produced the very next read at
the stopping offset would have exceeded the remaining buffer (either
the two code/length bytes or the declared data bytes do not fit), so
the parser stopped there and returned exactly the properties parsed so
far. -/
theorem C5_parse_never_throws_stops_at_overrun (b : List Nat) :
    (b.length < 12 → parse_echonet_frame b = none) ∧
    (12 ≤ b.length → ∃ f, parse_echonet_frame b = some f ∧
      f.OPC = b.getD 11 0 ∧
      f.properties.length ≤ f.OPC ∧
      (f.properties.length < f.OPC →
        b.length < 12 + (propsBytes f.properties).length + 2 ∨
        b.length < 12 + (propsBytes f.properties).length + 2 +
          b.getD (12 + (propsBytes f.properties).length + 1) 0)) := by
  constructor
  · intro h
    rw [parse_echonet_frame, if_pos h]
  · intro h
    rw [parse_echonet_frame, if_neg (by omega)]
    obtain ⟨_, _, hle, hstop⟩ := parseProps_spec (b.getD 11 0) b 12
    exact ⟨_, rfl, rfl, hle, hstop⟩

/-- Witness for C5 at concrete inputs: a 3-byte input parses to none,
and an 18-byte input declaring OPC = 2 whose buffer holds only one
property parses successfully with a single property. -/
theorem C5_witness :
    parse_echonet_frame [16, 129, 0] = none ∧
    (∃ f, parse_echonet_frame
        [16, 129, 0, 1, 2, 136, 1, 5, 255, 1, 114, 2, 231, 4, 0, 0, 0, 100] = some f ∧
      f.OPC = [16, 129, 0, 1, 2, 136, 1, 5, 255, 1, 114, 2, 231, 4, 0, 0, 0, 100].getD 11 0 ∧
      f.properties.length ≤ f.OPC ∧
      (f.properties.length < f.OPC →
        [16, 129, 0, 1, 2, 136, 1, 5, 255, 1, 114, 2, 231, 4, 0, 0, 0, 100].length
            < 12 + (propsBytes f.properties).length + 2 ∨
        [16, 129, 0, 1, 2, 136, 1, 5, 255, 1, 114, 2, 231, 4, 0, 0, 0, 100].length
            < 12 + (propsBytes f.properties).length + 2 +
          [16, 129, 0, 1, 2, 136, 1, 5, 255, 1, 114, 2, 231, 4, 0, 0, 0, 100].getD
            (12 + (propsBytes f.properties).length + 1) 0)) :=
  ⟨(C5_parse_never_throws_stops_at_overrun [16, 129, 0]).1 (by decide),
   (C5_parse_never_throws_stops_at_overrun
     [16, 129, 0, 1, 2, 136, 1, 5, 255, 1, 114, 2, 231, 4, 0, 0, 0, 100]).2 (by decide)⟩

/-- C10: Invariant of _parse_echonet_frame: every property triple
(EPC, PDC, EDT) in the returned property list satisfies
EDT.length = PDC, and the properties lie at consecutive,
non-overlapping offsets within the input starting at byte 12: their
concatenated (EPC, PDC, EDT) wire bytes form a prefix of the input
with the 12-byte header dropped. -/
theorem C10_parsed_properties_invariant (b : List Nat) (f : EchonetFrame)
    (h : parse_echonet_frame b = some f) :
    (∀ t ∈ f.properties, t.2.2.length = t.2.1) ∧
    ∃ rest, b.drop 12 = propsBytes f.properties ++ rest := by
  rw [parse_echonet_frame] at h
  split at h
  · exact absurd h (by simp)
  · obtain ⟨hl, ⟨rest, hp⟩, _, _⟩ := parseProps_spec (b.getD 11 0) b 12
    cases h
    exact ⟨hl, rest, hp⟩

/-- Witness for C10 at a concrete input: a response frame with one
4-byte instantaneous-power property. -/
theorem C10_witness :
    (∀ t ∈ (EchonetFrame.mk [16, 129] [0, 1] [2, 136, 1] [5, 255, 1] 114 2
        [(231, 4, [0, 0, 0, 100])]).properties, t.2.2.length = t.2.1) ∧
    ∃ rest, [16, 129, 0, 1, 2, 136, 1, 5, 255, 1, 114, 2, 231, 4, 0, 0, 0, 100, 13].drop 12
      = propsBytes (EchonetFrame.mk [16, 129] [0, 1] [2, 136, 1] [5, 255, 1] 114 2
          [(231, 4, [0, 0, 0, 100])]).properties ++ rest :=
  C10_parsed_properties_invariant
    [16, 129, 0, 1, 2, 136, 1, 5, 255, 1, 114, 2, 231, 4, 0, 0, 0, 100, 13]
    (EchonetFrame.mk [16, 129] [0, 1] [2, 136, 1] [5, 255, 1] 114 2
      [(231, 4, [0, 0, 0, 100])]) rfl

/-- C2: For every parsed property with code 0xEA or 0xEB whose payload
length is at least 10, the extractor produces a cumulative energy
value equal to the big-endian unsigned counter read from payload bytes
7 through 10 (the bytes after the 7-byte timestamp, the slice clamping
at the payload end exactly as the source slice edt[7:11] does) divided
by 10. The embedded timestamp is examined only inside a swallowed
try/except, so the value is produced whether or not the date is
calendar-valid: the theorem carries no date-validity hypothesis, and
its witness below uses an invalid date. -/
theorem C2_cumulative_energy (r : Reading) (epc pdc : Nat) (edt : List Nat)
    (hepc : epc = 0xEA ∨ epc = 0xEB) (hpdc : 10 ≤ pdc) :
    (epc = 0xEA → (extractProp r (epc, pdc, edt)).ea_forward
        = some ((fromBytesBE ((edt.drop 7).take 4) : Rat) / 10)) ∧
    (epc = 0xEB → (extractProp r (epc, pdc, edt)).eb_reverse
        = some ((fromBytesBE ((edt.drop 7).take 4) : Rat) / 10)) := by
  rcases hepc with h | h <;> subst h <;>
    simp [extractProp, hpdc]

/-- Witness for C2 at a concrete input: payload with timestamp
2025-13-40 99:99:99 (an invalid calendar date, swallowed) and counter
0x00003039 = 12345, extracting to 12345 / 10. -/
theorem C2_witness :
    isValidDate 2025 13 40 99 99 99 = false ∧
    (extractProp emptyReading (0xEA, 11, [7, 233, 13, 40, 99, 99, 99, 0, 0, 48, 57])).ea_forward
      = some ((12345 : Rat) / 10) :=
  ⟨rfl, by
    have h := (C2_cumulative_energy emptyReading 0xEA 11
      [7, 233, 13, 40, 99, 99, 99, 0, 0, 48, 57] (Or.inl rfl) (by norm_num)).1 rfl
    rwa [show fromBytesBE (([7, 233, 13, 40, 99, 99, 99, 0, 0, 48, 57].drop 7).take 4)
      = 12345 from rfl] at h⟩

/-- C7: For every parsed property with code 0xE9: a 4-byte payload
sets the instantaneous voltage to the unscaled arithmetic mean
(v1 + v2) / 2 of its two big-endian 16-bit unsigned halves — no
division by 10 is applied — while any payload length other than 4
(including the zero-length not-supported case) leaves the voltage
field untouched, hence absent when extraction starts from the all-None
reading. -/
theorem C7_voltage_mean_or_absent (r : Reading) (pdc : Nat) (edt : List Nat) :
    ((extractProp r (0xE9, 4, edt)).e9_voltage
      = some (((fromBytesBE (edt.take 2) : Rat)
          + (fromBytesBE ((edt.drop 2).take 2) : Rat)) / 2)) ∧
    (pdc ≠ 4 → (extractProp r (0xE9, pdc, edt)).e9_voltage = r.e9_voltage) := by
  constructor
  · simp [extractProp]
  · intro h
    by_cases h0 : pdc = 0 <;> simp [extractProp, h, h0]

/-- Witness for C7 at concrete inputs: payload 0x08FC0904 extracts to
(2300 + 2308) / 2 = 2304 with no scaling, and a zero-length payload
leaves the voltage absent. -/
theorem C7_witness :
    (extractProp emptyReading (0xE9, 4, [8, 252, 9, 4])).e9_voltage = some (2304 : Rat) ∧
    (extractProp emptyReading (0xE9, 0, [])).e9_voltage = none :=
  ⟨by
    have h := (C7_voltage_mean_or_absent emptyReading 4 [8, 252, 9, 4]).1
    rw [show fromBytesBE ([8, 252, 9, 4].take 2) = 2300 from rfl,
      show fromBytesBE (([8, 252, 9, 4].drop 2).take 2) = 2308 from rfl] at h
    rw [h]
    norm_num,
   ((C7_voltage_mean_or_absent emptyReading 0 []).2 (by decide)).trans rfl⟩

/-- Xor with the all-ones mask below 2 ^ k is complement within k bits. -/
theorem xor_all_ones : ∀ (k v : Nat), v < 2 ^ k → v ^^^ (2 ^ k - 1) = 2 ^ k - 1 - v := by
  intro k
  induction k with
  | zero =>
    intro v hv
    have : v = 0 := by omega
    subst this
    rfl
  | succ k ih =>
    intro v hv
    have hk : 0 < 2 ^ k := Nat.pos_pow_of_pos k (by norm_num)
    have h2 : (2 : Nat) ^ (k + 1) = 2 * 2 ^ k := by ring
    have hm : (2 ^ (k + 1) - 1 : Nat) / 2 = 2 ^ k - 1 := by omega
    have hmm : (2 ^ (k + 1) - 1 : Nat) % 2 = 1 := by omega
    have hv2 : v / 2 < 2 ^ k := by omega
    have hdiv : (v ^^^ (2 ^ (k + 1) - 1)) / 2 = 2 ^ k - 1 - v / 2 := by
      rw [Nat.xor_div_two, hm, ih _ hv2]
    have hmod : (v ^^^ (2 ^ (k + 1) - 1)) % 2 = 1 - v % 2 := by
      rcases Nat.mod_two_eq_zero_or_one v with h | h
      · have hx : (v ^^^ (2 ^ (k + 1) - 1)) % 2 = 1 := by
          rw [Nat.xor_mod_two_eq_one]
          simp [h, hmm]
        omega
      · have hx : ¬((v ^^^ (2 ^ (k + 1) - 1)) % 2 = 1) := by
          rw [Nat.xor_mod_two_eq_one]
          simp [h, hmm]
        omega
    have hsum := Nat.div_add_mod (v ^^^ (2 ^ (k + 1) - 1)) 2
    have hvs := Nat.div_add_mod v 2
    omega

/-- Bound for the big-endian fold: starting from accumulator a, a list
of bytes below 256 produces a value below (a + 1) * 256 ^ length. -/
theorem foldl_bytes_lt : ∀ (l : List Nat) (a : Nat), (∀ b ∈ l, b < 256) →
    List.foldl (fun acc b => acc * 256 + b) a l < (a + 1) * 256 ^ l.length := by
  intro l
  induction l with
  | nil => intro a _; simpa using Nat.lt_succ_self a
  | cons b t ih =>
    intro a h
    have hb : b < 256 := h b (by simp)
    have ht : ∀ x ∈ t, x < 256 := fun x hx => h x (by simp [hx])
    have h1 := ih (a * 256 + b) ht
    have h2 : (a * 256 + b + 1) * 256 ^ t.length ≤ (a + 1) * 256 ^ (t.length + 1) := by
      have hstep : a * 256 + b + 1 ≤ (a + 1) * 256 := by omega
      calc (a * 256 + b + 1) * 256 ^ t.length
          ≤ ((a + 1) * 256) * 256 ^ t.length := Nat.mul_le_mul_right _ hstep
        _ = (a + 1) * 256 ^ (t.length + 1) := by ring
    simp only [List.foldl_cons, List.length_cons]
    exact lt_of_lt_of_le h1 h2

/-- A list of bytes below 256 has big-endian value below 256 ^ length. -/
theorem fromBytesBE_lt (l : List Nat) (h : ∀ b ∈ l, b < 256) :
    fromBytesBE l < 256 ^ l.length := by
  simpa [fromBytesBE] using foldl_bytes_lt l 0 h

/-- C6: For every parsed property with code 0xE7 and payload length
exactly 4, the extracted instantaneous power equals the payload
interpreted as a 32-bit big-endian twos-complement signed integer:
the manual bit-31 test and xor-flip in the source agree with the
twos-complement reading on every 4-byte payload. -/
theorem C6_power_twos_complement (r : Reading) (edt : List Nat)
    (hlen : edt.length = 4) (hbytes : ∀ b ∈ edt, b < 256) :
    (extractProp r (0xE7, 4, edt)).e7_power = some (toSigned32 (fromBytesBE edt)) := by
  have hval : fromBytesBE edt < 2 ^ 32 := by
    have := fromBytesBE_lt edt hbytes
    rw [hlen] at this
    omega
  simp only [extractProp, toSigned32]
  norm_num
  set val := fromBytesBE edt with hv
  have e31 : (2 : Nat) ^ 31 = 2147483648 := by norm_num
  have e32 : (2 : Nat) ^ 32 = 4294967296 := by norm_num
  by_cases hlt : val < 2 ^ 31
  · have hdiv : val / 2 ^ 31 = 0 := Nat.div_eq_of_lt hlt
    rw [Nat.shiftRight_eq_div_pow, hdiv, if_neg (by norm_num), if_pos (by omega)]
  · have hdiv : val / 2 ^ 31 = 1 := by
      rw [e31]
      rw [e31] at hlt
      rw [e32] at hval
      omega
    have hxor : val ^^^ 4294967295 = 4294967295 - val := by
      have h := xor_all_ones 32 val hval
      rw [e32] at h
      simpa using h
    rw [Nat.shiftRight_eq_div_pow, hdiv, if_pos (by norm_num), if_neg (by omega), hxor]
    have hle : val ≤ 4294967295 := by rw [e32] at hval; omega
    push_cast [Nat.cast_sub hle]
    omega

/-- Witness for C6 at the two payloads the claim singles out:
0xFFFFFFFF extracts to -1 and 0x00000064 extracts to 100. -/
theorem C6_witness :
    (extractProp emptyReading (0xE7, 4, [255, 255, 255, 255])).e7_power = some (-1) ∧
    (extractProp emptyReading (0xE7, 4, [0, 0, 0, 100])).e7_power = some 100 :=
  ⟨(C6_power_twos_complement emptyReading [255, 255, 255, 255] rfl (by decide)).trans
    (by rw [show fromBytesBE [255, 255, 255, 255] = 4294967295 from rfl]; rfl),
   (C6_power_twos_complement emptyReading [0, 0, 0, 100] rfl (by decide)).trans
    (by rw [show fromBytesBE [0, 0, 0, 100] = 100 from rfl]; rfl)⟩

/-- The read loop of get_data returns the all-None reading when, among
the lines within its budget, every line is empty, or does not start
with ERXUDP, or splits into fewer than 9 tokens. -/
theorem getDataLoop_no_response : ∀ (k : Nat) (lines : List Line),
    (∀ l ∈ lines.take k, l = [] ∨ bytesStartWith erxudpBytes l = false ∨
      (splitMaxBytes 32 8 l).length < 9) →
    getDataLoop k lines = emptyReading := by
  intro k
  induction k with
  | zero => intro lines _; rfl
  | succ k ih =>
    intro lines h
    cases lines with
    | nil => rfl
    | cons l rest =>
      have hl := h l (by simp)
      have hrest : ∀ x ∈ rest.take k, x = [] ∨ bytesStartWith erxudpBytes x = false ∨
          (splitMaxBytes 32 8 x).length < 9 := by
        intro x hx
        exact h x (by simp [List.take_succ_cons, hx])
      by_cases he : l.isEmpty
      · simp only [getDataLoop, he, if_true]
        exact ih rest hrest
      · simp only [getDataLoop, he]
        rw [if_neg (by simp [he])]
        by_cases hs : bytesStartWith erxudpBytes l = true
        · rw [if_pos hs]
          have h9 : (splitMaxBytes 32 8 l).length < 9 := by
            rcases hl with h1 | h2 | h3
            · exact absurd (by simp [h1] : l.isEmpty = true) (by simpa using he)
            · exact absurd hs (by simp [h2])
            · exact h3
          rw [if_pos h9]
          exact ih rest hrest
        · rw [if_neg hs]
          exact ih rest hrest

/-- C8: If, after sending the read request, no line among the 10 the
read loop is willing to consume starts with ERXUDP and splits into at
least 9 space-delimited tokens (the source splits on single spaces
with maxsplit 8, so empty tokens between consecutive spaces count),
get_data returns a reading in which all five fields are absent; being
a total function of the stream, it does not raise. -/
theorem C8_no_response_all_fields_absent (lines : List Line)
    (h : ∀ l ∈ lines.take 10, l = [] ∨ bytesStartWith erxudpBytes l = false ∨
      (splitMaxBytes 32 8 l).length < 9) :
    (get_data lines).e7_power = none ∧ (get_data lines).e8_current = none ∧
    (get_data lines).e9_voltage = none ∧ (get_data lines).ea_forward = none ∧
    (get_data lines).eb_reverse = none := by
  have hr : get_data lines = emptyReading := getDataLoop_no_response 10 lines h
  rw [hr]
  exact ⟨rfl, rfl, rfl, rfl, rfl⟩

/-- Witness for C8 at a concrete stream: an empty read, a non-ERXUDP
line, and an ERXUDP line with only two tokens. -/
theorem C8_witness :
    (get_data [[], [65, 66], [69, 82, 88, 85, 68, 80, 32, 49, 13, 10]]).e7_power = none ∧
    (get_data [[], [65, 66], [69, 82, 88, 85, 68, 80, 32, 49, 13, 10]]).e8_current = none ∧
    (get_data [[], [65, 66], [69, 82, 88, 85, 68, 80, 32, 49, 13, 10]]).e9_voltage = none ∧
    (get_data [[], [65, 66], [69, 82, 88, 85, 68, 80, 32, 49, 13, 10]]).ea_forward = none ∧
    (get_data [[], [65, 66], [69, 82, 88, 85, 68, 80, 32, 49, 13, 10]]).eb_reverse = none :=
  C8_no_response_all_fields_absent [[], [65, 66], [69, 82, 88, 85, 68, 80, 32, 49, 13, 10]]
    (by decide)

/-- Forward characterization of the wait_ok loop: a successful wait
means the stream decomposes as skipped lines, then the first line
starting with OK; the skipped lines contain no OK line and, together
with the starting count, fewer than 5 empty reads; the returned value
is the rest of the stream past the OK line. -/
theorem waitOkAux_ok_decomp : ∀ (lines : List Line) (ec : Nat), ec < 5 →
    ∀ r, waitOkAux ec lines = .ok r →
    ∃ pre l post, lines = pre ++ l :: post ∧ bytesStartWith okBytes l = true ∧
      (∀ x ∈ pre, bytesStartWith okBytes x = false) ∧
      ec + countEmpty pre < 5 ∧ r = post := by
  intro lines
  induction lines with
  | nil => intro ec _ r hr; simp [waitOkAux] at hr
  | cons a rest ih =>
    intro ec hec r hr
    by_cases ha : a.isEmpty
    · have haeq : a = [] := by simpa using ha
      by_cases hc : 5 ≤ ec + 1
      · simp only [waitOkAux, ha, if_true, if_pos hc] at hr
        cases hr
      · simp only [waitOkAux, ha, if_true, if_neg hc] at hr
        obtain ⟨pre, l, post, heq, hok, hpre, hcnt, hrp⟩ := ih (ec + 1) (by omega) r hr
        refine ⟨a :: pre, l, post, by rw [heq]; rfl, hok, ?_, ?_, hrp⟩
        · intro x hx
          rcases List.mem_cons.mp hx with h | h
          · subst h; rw [haeq]; rfl
          · exact hpre x h
        · have hce : countEmpty (a :: pre) = countEmpty pre + 1 := by
            simp [countEmpty, List.countP_cons, ha]
          rw [hce]
          omega
    · by_cases hs : bytesStartWith okBytes a = true
      · simp only [waitOkAux, ha, if_false, hs, if_true] at hr
        refine ⟨[], a, rest, rfl, hs, by simp, ?_, ?_⟩
        · simpa [countEmpty] using hec
        · cases hr; rfl
      · simp only [waitOkAux, ha, if_false, hs] at hr
        rw [if_neg (by simp)] at hr
        obtain ⟨pre, l, post, heq, hok, hpre, hcnt, hrp⟩ := ih ec hec r hr
        refine ⟨a :: pre, l, post, by rw [heq]; rfl, hok, ?_, ?_, hrp⟩
        · intro x hx
          rcases List.mem_cons.mp hx with h | h
          · subst h; simpa using hs
          · exact hpre x h
        · have hce : countEmpty (a :: pre) = countEmpty pre := by
            simp [countEmpty, List.countP_cons, ha]
          rw [hce]
          exact hcnt

/-- Completeness of the wait_ok loop: on any stream decomposing into
skipped lines without an OK line and containing, together with the
starting count, fewer than 5 empty reads, followed by a line starting
with OK, the wait succeeds and returns exactly the stream past that
OK line. -/
theorem waitOkAux_ok_of_decomp : ∀ (pre : List Line) (ec : Nat) (l : Line) (post : List Line),
    (∀ x ∈ pre, bytesStartWith okBytes x = false) →
    bytesStartWith okBytes l = true →
    ec + countEmpty pre < 5 →
    waitOkAux ec (pre ++ l :: post) = .ok post := by
  intro pre
  induction pre with
  | nil =>
    intro ec l post _ hok _
    have hne : l.isEmpty = false := by
      cases l with
      | nil => exact absurd hok (by decide)
      | cons b bs => rfl
    rw [List.nil_append]
    simp only [waitOkAux]
    rw [if_neg (by simp [hne]), if_pos hok]
  | cons a pre ih =>
    intro ec l post hpre hok hcnt
    have hapre : bytesStartWith okBytes a = false := hpre a (by simp)
    have hrest : ∀ x ∈ pre, bytesStartWith okBytes x = false :=
      fun x hx => hpre x (by simp [hx])
    rw [List.cons_append]
    by_cases ha : a.isEmpty
    · have hce : countEmpty (a :: pre) = countEmpty pre + 1 := by
        simp [countEmpty, List.countP_cons, ha]
      have hcnt2 : (ec + 1) + countEmpty pre < 5 := by
        rw [hce] at hcnt
        omega
      simp only [waitOkAux, ha, if_true]
      rw [if_neg (by omega)]
      exact ih (ec + 1) l post hrest hok hcnt2
    · have hce : countEmpty (a :: pre) = countEmpty pre := by
        simp [countEmpty, List.countP_cons, ha]
      have hcnt2 : ec + countEmpty pre < 5 := by
        rw [hce] at hcnt
        omega
      simp only [waitOkAux]
      rw [if_neg ha, if_neg (by simp [hapre])]
      exact ih ec l post hrest hok hcnt2

/-- C1 (amended): the empty-read budget of wait_ok is cumulative over
the whole wait and never reset. The wait succeeds exactly when some
line starting with OK is preceded only by lines not starting with OK
among which fewer than 5 are empty reads — a non-empty non-OK line
neither counts toward nor resets the budget; whenever such a
decomposition exists the wait returns as soon as the first OK line is
read, yielding exactly the stream past it; and the wait fails with the
timeout error exactly when no such decomposition exists. -/
theorem C1_wait_ok_cumulative_budget (lines : List Line) :
    ((∃ r, wait_ok lines = .ok r) ↔
      ∃ pre l post, lines = pre ++ l :: post ∧ bytesStartWith okBytes l = true ∧
        (∀ x ∈ pre, bytesStartWith okBytes x = false) ∧ countEmpty pre < 5) ∧
    (∀ pre l post, lines = pre ++ l :: post → bytesStartWith okBytes l = true →
      (∀ x ∈ pre, bytesStartWith okBytes x = false) → countEmpty pre < 5 →
      wait_ok lines = .ok post) ∧
    (wait_ok lines = .error () ↔
      ¬ ∃ pre l post, lines = pre ++ l :: post ∧ bytesStartWith okBytes l = true ∧
        (∀ x ∈ pre, bytesStartWith okBytes x = false) ∧ countEmpty pre < 5) := by
  have hfwd : ∀ r, wait_ok lines = .ok r →
      ∃ pre l post, lines = pre ++ l :: post ∧ bytesStartWith okBytes l = true ∧
        (∀ x ∈ pre, bytesStartWith okBytes x = false) ∧ countEmpty pre < 5 := by
    intro r hr
    obtain ⟨pre, l, post, heq, hok, hpre, hcnt, _⟩ :=
      waitOkAux_ok_decomp lines 0 (by omega) r hr
    exact ⟨pre, l, post, heq, hok, hpre, by omega⟩
  have hcompl : ∀ pre l post, lines = pre ++ l :: post →
      bytesStartWith okBytes l = true →
      (∀ x ∈ pre, bytesStartWith okBytes x = false) → countEmpty pre < 5 →
      wait_ok lines = .ok post := by
    intro pre l post heq hok hpre hcnt
    rw [heq, wait_ok]
    exact waitOkAux_ok_of_decomp pre 0 l post hpre hok (by omega)
  refine ⟨⟨fun ⟨r, hr⟩ => hfwd r hr, ?_⟩, hcompl, ?_, ?_⟩
  · rintro ⟨pre, l, post, heq, hok, hpre, hcnt⟩
    exact ⟨post, hcompl pre l post heq hok hpre hcnt⟩
  · intro he hd
    obtain ⟨pre, l, post, heq, hok, hpre, hcnt⟩ := hd
    have hok2 := hcompl pre l post heq hok hpre hcnt
    rw [he] at hok2
    cases hok2
  · intro hne
    cases hw : wait_ok lines with
    | error u => cases u; rfl
    | ok r => exact absurd (hfwd r hw) hne

/-- Witness for C1 at a concrete stream: two non-consecutive empty
reads and a non-OK line precede the first OK line, so the wait
succeeds within the cumulative budget and returns exactly the lines
past that OK line. -/
theorem C1_witness :
    wait_ok [[], [65], [], [79, 75, 13, 10], [66]] = .ok [[66]] :=
  (C1_wait_ok_cumulative_budget [[], [65], [], [79, 75, 13, 10], [66]]).2.1
    [[], [65], []] [79, 75, 13, 10] [[66]] rfl rfl (by decide) (by decide)

/-- Counterexample to C1 as stated: a stream alternating single empty
reads with non-OK lines, ending in an OK line. No two empty reads are
consecutive and an OK line is present, yet wait_ok times out, because
the source never resets empty_count on non-empty lines; the
consecutive-budget wait the spec describes succeeds on the same
stream. -/
theorem C1_counterexample :
    wait_ok [[], [65], [], [65], [], [65], [], [65], [], [79, 75]] = .error () ∧
    waitOkConsecutive 0 [[], [65], [], [65], [], [65], [], [65], [], [79, 75]] = .ok [] :=
  ⟨rfl, rfl⟩

/-- Invariant of the scan loop: starting at duration d of at most 14
with enough fuel and no channel yet found, a terminating run attempts
durations d, d + 1, ... consecutively, at most 15 - d of them; every
attempt but the last leaves the channel key absent; a successful run
ends exactly at the first attempt whose merged results contain the
channel key; a scan-exhausted failure occurs exactly after the attempt
at duration 14, every attempt having left the channel key absent. -/
theorem scanLoop_spec : ∀ (fuel : Nat) (d : Nat) (s : ScanRes) (lines : List Line)
    (tr : List (Nat × ScanRes)) (res : Except Unit (ScanRes × List Line)),
    d ≤ 14 → 15 - d ≤ fuel → hasChannel s = false →
    scanLoop fuel d s lines = some (tr, res) →
    tr.map Prod.fst = List.range' d tr.length ∧
    tr.length ≤ 15 - d ∧
    (∀ p ∈ tr.dropLast, hasChannel p.2 = false) ∧
    (∀ s2 rest2, res = .ok (s2, rest2) →
      ∃ tr0 p, tr = tr0 ++ [p] ∧ hasChannel p.2 = true ∧ p.2 = s2) ∧
    (res = .error () → tr.length = 15 - d ∧ ∀ p ∈ tr, hasChannel p.2 = false) := by
  intro fuel
  induction fuel with
  | zero =>
    intro d s lines tr res hd hf _ _
    omega
  | succ fuel ih =>
    intro d s lines tr res hd hf hs hrun
    rw [scanLoop, if_neg (by simp [hs])] at hrun
    cases hatt : scanAttempt s lines with
    | none => rw [hatt] at hrun; cases hrun
    | some pr =>
      obtain ⟨s2, rest⟩ := pr
      rw [hatt] at hrun
      simp only [] at hrun
      by_cases hA : 14 < d + 1 ∧ hasChannel s2 = false
      · rw [if_pos hA] at hrun
        obtain ⟨htr, hres⟩ := Prod.mk.injEq .. ▸ (Option.some.inj hrun)
        subst htr
        subst hres
        have hd14 : d = 14 := by omega
        refine ⟨by simp, by simp; omega, by simp, ?_, ?_⟩
        · intro s3 rest3 habs
          cases habs
        · intro _
          refine ⟨by simp; omega, ?_⟩
          intro p hp
          rcases List.mem_singleton.mp hp with h
          subst h
          exact hA.2
      · rw [if_neg hA] at hrun
        by_cases hB : hasChannel s2 = true
        · rw [if_pos hB] at hrun
          obtain ⟨htr, hres⟩ := Prod.mk.injEq .. ▸ (Option.some.inj hrun)
          subst htr
          subst hres
          refine ⟨by simp, by simp; omega, by simp, ?_, ?_⟩
          · intro s3 rest3 hok
            obtain ⟨hs3, _⟩ := Prod.mk.injEq .. ▸ (Except.ok.inj hok)
            exact ⟨[], (d, s2), rfl, hB, hs3⟩
          · intro habs
            cases habs
        · have hB2 : hasChannel s2 = false := by
            cases h : hasChannel s2
            · rfl
            · exact absurd h hB
          have hd13 : d + 1 ≤ 14 := by
            rcases Nat.lt_or_ge 14 (d + 1) with h | h
            · exact absurd ⟨h, hB2⟩ hA
            · exact h
          rw [if_neg hB] at hrun
          cases hrec : scanLoop fuel (d + 1) s2 rest with
          | none => rw [hrec] at hrun; cases hrun
          | some pr2 =>
            obtain ⟨tr2, res2⟩ := pr2
            rw [hrec] at hrun
            simp only [] at hrun
            obtain ⟨htr, hres⟩ := Prod.mk.injEq .. ▸ (Option.some.inj hrun)
            subst htr
            subst hres
            obtain ⟨ihMap, ihLen, ihDrop, ihOk, ihErr⟩ :=
              ih (d + 1) s2 rest tr2 res2 hd13 (by omega) hB2 hrec
            refine ⟨?_, ?_, ?_, ?_, ?_⟩
            · simp only [List.map_cons, ihMap, List.length_cons]
              rw [List.range'_succ]
            · simp only [List.length_cons]
              omega
            · intro p hp
              cases res2 with
              | ok v =>
                obtain ⟨s3, rest3⟩ := v
                obtain ⟨tr0, plast, htr2, hplast, _⟩ := ihOk s3 rest3 rfl
                rw [htr2] at hp
                rw [show (d, s2) :: (tr0 ++ [plast]) = ((d, s2) :: tr0) ++ [plast] from rfl,
                  List.dropLast_concat] at hp
                rcases List.mem_cons.mp hp with h | h
                · subst h; exact hB2
                · have : p ∈ tr0.dropLast ∨ p ∈ [plast].dropLast ∨ p ∈ tr0 := by
                    right; right; exact h
                  have hmem : p ∈ (tr0 ++ [plast]).dropLast := by
                    rw [List.dropLast_concat]; exact h
                  have : p ∈ tr2.dropLast := by rw [htr2]; exact hmem
                  exact ihDrop p this
              | error u =>
                have hall := (ihErr (by cases u; rfl)).2
                have hsub : p ∈ (d, s2) :: tr2 := List.dropLast_subset _ hp
                rcases List.mem_cons.mp hsub with h | h
                · subst h; exact hB2
                · exact hall p h
            · intro s3 rest3 hok
              obtain ⟨tr0, plast, htr2, hplast, hps⟩ := ihOk s3 rest3 hok
              exact ⟨(d, s2) :: tr0, plast, by rw [htr2]; rfl, hplast, hps⟩
            · intro herr
              obtain ⟨hlen2, hall⟩ := ihErr herr
              refine ⟨by simp only [List.length_cons]; omega, ?_⟩
              intro p hp
              rcases List.mem_cons.mp hp with h | h
              · subst h; exact hB2
              · exact hall p h

/-- C3: A terminating run of the channel-scan loop issues scan
attempts with durations 5, 6, 7, ... in increasing order, one
increment per attempt, never starting an attempt at a duration greater
than 14 (at most 10 attempts); it exits successfully at exactly the
first attempt after which the scan results contain the channel key
(all earlier attempts left it absent); and it fails with the
scan-exhausted error precisely by exhausting all 10 attempts with the
channel key never appearing. -/
theorem C3_scan_durations (lines : List Line) (tr : List (Nat × ScanRes))
    (res : Except Unit (ScanRes × List Line))
    (h : scan_channel lines = some (tr, res)) :
    tr.map Prod.fst = List.range' 5 tr.length ∧
    tr.length ≤ 10 ∧
    (∀ p ∈ tr, p.1 ≤ 14) ∧
    (∀ p ∈ tr.dropLast, hasChannel p.2 = false) ∧
    (∀ s2 rest2, res = .ok (s2, rest2) →
      ∃ tr0 p, tr = tr0 ++ [p] ∧ hasChannel p.2 = true ∧ p.2 = s2) ∧
    (res = .error () → tr.length = 10 ∧ ∀ p ∈ tr, hasChannel p.2 = false) := by
  obtain ⟨hmap, hlen, hdrop, hok, herr⟩ :=
    scanLoop_spec 11 5 [] lines tr res (by omega) (by omega) rfl h
  refine ⟨hmap, by omega, ?_, hdrop, hok, fun he => ⟨by have := (herr he).1; omega,
    (herr he).2⟩⟩
  intro p hp
  have hmem : p.1 ∈ tr.map Prod.fst := List.mem_map_of_mem Prod.fst hp
  rw [hmap] at hmem
  obtain ⟨i, hi, hpi⟩ := List.mem_range'.mp hmem
  omega

/-- Witness for C3 at a concrete stream: one scan attempt that reports
the channel key and then the scan-complete event, on which the loop
exits successfully after the single attempt at duration 5. -/
theorem C3_witness :
    ([(5, [([67, 104, 97, 110, 110, 101, 108], [50, 49])])] :
        List (Nat × ScanRes)).map Prod.fst
      = List.range' 5 ([(5, [([67, 104, 97, 110, 110, 101, 108], [50, 49])])] :
        List (Nat × ScanRes)).length ∧
    ∃ tr0 p, ([(5, [([67, 104, 97, 110, 110, 101, 108], [50, 49])])] :
        List (Nat × ScanRes)) = tr0 ++ [p] ∧ hasChannel p.2 = true ∧
      p.2 = [([67, 104, 97, 110, 110, 101, 108], [50, 49])] := by
  obtain ⟨hmap, _, _, _, hok, _⟩ := C3_scan_durations
    [[32, 32, 67, 104, 97, 110, 110, 101, 108, 58, 50, 49, 13, 10],
     [69, 86, 69, 78, 84, 32, 50, 50, 13, 10]]
    [(5, [([67, 104, 97, 110, 110, 101, 108], [50, 49])])]
    (.ok ([([67, 104, 97, 110, 110, 101, 108], [50, 49])], [])) rfl
  exact ⟨hmap, hok [([67, 104, 97, 110, 110, 101, 108], [50, 49])] [] rfl⟩

/-- The PANA authentication wait raises only the
authentication-failure error. -/
theorem authWait_error : ∀ (ls : List Line) (e : BErr),
    authWait ls = some (.error e) → e = .panaFailed := by
  intro ls
  induction ls with
  | nil => intro e h; simp [authWait] at h
  | cons a rest ih =>
    intro e h
    by_cases h1 : a.isEmpty
    · simp only [authWait, h1, if_true] at h
      exact ih e h
    · simp only [authWait, h1, if_false] at h
      rw [if_neg (by simpa using h1)] at h
      by_cases h2 : bytesStartWith event24Bytes a = true
      · rw [if_pos h2] at h
        cases h
        rfl
      · rw [if_neg h2] at h
        by_cases h3 : bytesStartWith event25Bytes a = true
        · rw [if_pos h3] at h
          cases h
        · rw [if_neg h3] at h
          exact ih e h

/-- The try-block body of connect() produces only granular step
errors, never an already-wrapped one. -/
theorem connectBody_error_not_wrapped (openOk : Bool) (lines : List Line) (e : BErr)
    (h : connectBody openOk lines = some (.error e)) : e.isWrapped = false := by
  rw [connectBody] at h
  by_cases h0 : openOk = false
  · rw [if_pos h0] at h
    cases h
    rfl
  · rw [if_neg h0] at h
    cases hw1 : wait_ok lines with
    | error u => rw [hw1] at h; cases h; rfl
    | ok l1 =>
      rw [hw1] at h
      simp only [] at h
      cases hw2 : wait_ok l1 with
      | error u => rw [hw2] at h; cases h; rfl
      | ok l2 =>
        rw [hw2] at h
        simp only [] at h
        cases hsc : scan_channel l2 with
        | none => rw [hsc] at h; cases h
        | some pr =>
          obtain ⟨tr, res⟩ := pr
          rw [hsc] at h
          cases res with
          | error u => simp only [] at h; cases h; rfl
          | ok sv =>
            obtain ⟨s, l3⟩ := sv
            simp only [] at h
            cases hk1 : dictGet s channelKey with
            | none => rw [hk1] at h; cases h; rfl
            | some v1 =>
              rw [hk1] at h
              simp only [] at h
              cases hw3 : wait_ok l3 with
              | error u => rw [hw3] at h; cases h; rfl
              | ok l4 =>
                rw [hw3] at h
                simp only [] at h
                cases hk2 : dictGet s panIdKey with
                | none => rw [hk2] at h; cases h; rfl
                | some v2 =>
                  rw [hk2] at h
                  simp only [] at h
                  cases hw4 : wait_ok l4 with
                  | error u => rw [hw4] at h; cases h; rfl
                  | ok l5 =>
                    rw [hw4] at h
                    simp only [] at h
                    cases hk3 : dictGet s addrKey with
                    | none => rw [hk3] at h; cases h; rfl
                    | some v3 =>
                      rw [hk3] at h
                      simp only [] at h
                      cases hw5 : wait_ok (l5.drop 2) with
                      | error u => rw [hw5] at h; cases h; rfl
                      | ok l6 =>
                        rw [hw5] at h
                        simp only [] at h
                        cases hau : authWait l6 with
                        | none => rw [hau] at h; cases h
                        | some r =>
                          rw [hau] at h
                          cases r with
                          | error e0 =>
                            simp only [] at h
                            have he : e0 = e := Except.error.inj (Option.some.inj h)
                            rw [← he, authWait_error l6 e0 hau]
                            rfl
                          | ok l7 => simp only [] at h; cases h

/-- C9: Whenever any step inside connect() raises, connect() closes
the serial port when one is open (leaving no port when the open itself
failed, the port never remains open) and raises exactly one wrapped
connection error whose cause is the granular step error — which is
itself never a wrapped error, so the step error cannot propagate
unwrapped to the caller. -/
theorem C9_connect_wraps_and_closes (openOk : Bool) (lines : List Line)
    (p : PortState) (e : BErr)
    (h : connect openOk lines = some (p, .error e)) :
    p = (if openOk then PortState.closed else PortState.noPort) ∧
    ∃ c, e = .wrapped c ∧ c.isWrapped = false := by
  rw [connect] at h
  cases hb : connectBody openOk lines with
  | none => rw [hb] at h; cases h
  | some r =>
    rw [hb] at h
    cases r with
    | ok u =>
      simp only [] at h
      obtain ⟨_, habs⟩ := Prod.mk.injEq .. ▸ (Option.some.inj h)
      cases habs
    | error e0 =>
      simp only [] at h
      obtain ⟨hp, he⟩ := Prod.mk.injEq .. ▸ (Option.some.inj h)
      obtain he2 := Except.error.inj he
      constructor
      · rw [← hp]
        cases openOk with
        | false => rfl
        | true => rfl
      · exact ⟨e0, he2.symm, connectBody_error_not_wrapped openOk lines e0 hb⟩

/-- Witness for C9 at a concrete run: the port opens but the stream
stays silent, so the first acknowledgement wait times out; connect
closes the port and raises the wrapped error with the granular timeout
as its cause. -/
theorem C9_witness :
    PortState.closed = (if true then PortState.closed else PortState.noPort) ∧
    ∃ c, BErr.wrapped BErr.waitOkTimeout = BErr.wrapped c ∧ c.isWrapped = false :=
  C9_connect_wraps_and_closes true [] PortState.closed (.wrapped .waitOkTimeout) rfl

end BRoute
